import Mathlib

/-!
Verification development for the request-dispatch core of the actix-web2
repository: a shallow embedding of the path-pattern compiler and matcher
(src/pattern.rs, src/param.rs), the filter predicates (src/filter.rs), the
route and resource builders (src/route.rs, src/resource.rs), the router
service (src/router.rs) and the application factory cell (src/app.rs),
together with theorems about them.

Conventions of the embedding:
- Rust strings and string slices are modelled as lists of characters
  (byte offsets of the source become character offsets; on the ASCII
  inputs of the claims the two coincide, and all offset relations are
  preserved either way).
- Rust u16 casts are modelled as explicit reduction mod 65536.
- Rust panics and the Option::unwrap / expect calls are modelled with
  Option / Except result types (none / error marks the panic).
- The compiled regular expression of a dynamic pattern is kept as its
  source text; the external regex crate is modelled by an explicit
  engine parameter that maps a regex source text and an input to the
  optional list of capture-group spans (group 0, the whole match,
  included, exactly as the capture iterator of the crate yields it).
  Concrete engine instances for specific compiled patterns are given
  where concrete evaluation is needed.
-/

namespace ActixWeb2

/-- A path or template string, as a list of characters. -/
abbrev Str := List Char

/-- The character 0x7b (opening curly brace). -/
def lbrace : Char := Char.ofNat 123

/-- The character 0x7d (closing curly brace). -/
def rbrace : Char := Char.ofNat 125

/-- HTTP method, from actix_http::http::Method (the variants used here). -/
inductive Method where
  | GET | POST | PUT | DELETE | HEAD | OPTIONS | CONNECT | PATCH | TRACE
deriving DecidableEq, Repr

/-- The request view used by this core: method, URI path and headers
(actix_http::Request is an external collaborator; the dispatch code reads
only these projections). -/
structure Request where
  method : Method
  path : Str
  headers : List (Str × Str)
deriving DecidableEq, Repr

/-- Response model: the dispatch core only ever constructs a response from
a status code (Response::NotFound().finish() and the like). -/
structure Response where
  status : Nat
deriving DecidableEq, Repr

/-- Response::NotFound().finish(): a 404 response. -/
def Response.notFoundR : Response := ⟨404⟩

/-! ## Path pattern compiler (src/pattern.rs) -/

/-- PatternElement from src/pattern.rs. -/
inductive PatternElement where
  | str (s : Str)
  | var (name : Str)
deriving DecidableEq, Repr

/-- PatternType from src/pattern.rs. Constructor staticP models
PatternType::Static, pfx models PatternType::Prefix, and dynamicP models
PatternType::Dynamic: it stores the regex source text, the capture names
in declaration order and the trailing-literal length, the compiled regex
itself being supplied externally by an engine parameter at matching time. -/
inductive PatternType where
  | staticP (s : Str)
  | pfx (s : Str)
  | dynamicP (re : Str) (names : List Str) (len : Nat)
deriving DecidableEq, Repr

/-- ResourceType from src/pattern.rs (Normal, Default, External, Unset). -/
inductive ResourceType where
  | normal | dflt | externalT | unset
deriving DecidableEq, Repr

/-- ResourcePattern from src/pattern.rs. -/
structure ResourcePattern where
  tp : PatternType
  rtp : ResourceType
  pattern : Str
  elements : List PatternElement
deriving DecidableEq, Repr

/-- Is a character a regex meta character, per regex::escape of the regex
crate (is_meta_character). -/
def isMetaChar (c : Char) : Bool :=
  c = '\\' || c = '.' || c = '+' || c = '*' || c = '?' || c = '(' || c = ')' ||
  c = '|' || c = '[' || c = ']' || c = lbrace || c = rbrace || c = '^' ||
  c = '$' || c = '#' || c = '&' || c = '-' || c = '~'

/-- regex::escape: prefix every meta character with a backslash. -/
def escapeRe (s : Str) : Str :=
  s.flatMap fun c => if isMetaChar c then ['\\', c] else [c]

/-- The brace-matching scan of ResourcePattern::parse_param: the index of
the closing brace at which the nesting counter returns to zero.  The
source uses a usize counter mutated inside a char-find closure; an Int
counter is used here (the source is only ever called on input that starts
with an opening brace, so the counter never goes below zero there). -/
def findCloseIdx : Str → Int → Option Nat
  | [], _ => none
  | c :: rest, nesting =>
    if c = lbrace then (findCloseIdx rest (nesting + 1)).map (· + 1)
    else if c = rbrace then
      if nesting - 1 = 0 then some 0 else (findCloseIdx rest (nesting - 1)).map (· + 1)
    else (findCloseIdx rest nesting).map (· + 1)

/-- The default sub-pattern of a dynamic segment. -/
def DEFAULT_PATTERN : Str := "[^/]+".data

/-- ResourcePattern::parse_param.  Returns the Var element, the regex
fragment for the capture group, and the unparsed remainder; none models
the expect(\"malformed param\") panic when no balancing close brace
exists. -/
def parseParam (pattern : Str) : Option (PatternElement × Str × Str) :=
  (findCloseIdx pattern 0).map fun closeIdx =>
    let param := pattern.take (closeIdx + 1)
    let rem := pattern.drop (closeIdx + 1)
    let param := (param.drop 1).dropLast
    match param.findIdx? (· = ':') with
    | some i =>
      let name := param.take i
      let sub := param.drop (i + 1)
      (PatternElement.var name, "(?P<".data ++ name ++ ">".data ++ sub ++ ")".data, rem)
    | none =>
      (PatternElement.var param,
       "(?P<".data ++ param ++ ">".data ++ DEFAULT_PATTERN ++ ")".data, rem)

/-- The accumulation loop of ResourcePattern::parse: scan for brace
segments, escaping literal runs into the regex accumulator; returns the
accumulated regex, the element list and the final literal remainder.  The
source's while-let loop is the recursion, here driven by an explicit fuel
so the function is structurally recursive and kernel-evaluable: every
step consumes at least the brace segment (parse_param strictly shortens
the remainder), so the wrapper's fuel of the input length plus one is
never exhausted.  none models the parse_param panic. -/
def parseLoopF : Nat → Str → Str → List PatternElement →
    Option (Str × List PatternElement × Str)
  | 0, _, _, _ => none
  | fuel + 1, pattern, re, elems =>
    match pattern.findIdx? (· = lbrace) with
    | none =>
      some (re ++ escapeRe pattern, elems ++ [PatternElement.str pattern], pattern)
    | some idx =>
      let pre := pattern.take idx
      let rem := pattern.drop idx
      match parseParam rem with
      | none => none
      | some (elem, rePart, rem2) =>
        parseLoopF fuel rem2 (re ++ escapeRe pre ++ rePart)
          (elems ++ [PatternElement.str pre, elem])

/-- The while-let loop of ResourcePattern::parse, with adequate fuel. -/
def parseLoop (pattern : Str) (re : Str) (elems : List PatternElement) :
    Option (Str × List PatternElement × Str) :=
  parseLoopF (pattern.length + 1) pattern re elems

/-- The result of ResourcePattern::parse: the regex (or literal) text, the
elements, the dynamic flag and the trailing-literal character count. -/
structure ParseOut where
  re : Str
  elements : List PatternElement
  isDynamic : Bool
  len : Nat
deriving DecidableEq, Repr

/-- ResourcePattern::parse. -/
def parse (pattern : Str) (forPre : Bool) : Option ParseOut :=
  if lbrace ∈ pattern then
    (parseLoop pattern "^".data []).map fun out =>
      let re := if ¬ forPre then out.1 ++ "$".data else out.1
      ⟨re, out.2.1, true, out.2.2.length⟩
  else
    some ⟨pattern, [PatternElement.str pattern], false, pattern.length⟩

/-- The capture names of the compiled regex, in declaration order: the
source collects them from Regex::capture_names; for the regexes generated
by parse these are exactly the Var elements in order. -/
def captureNames (elems : List PatternElement) : List Str :=
  elems.filterMap fun e =>
    match e with
    | PatternElement.var n => some n
    | PatternElement.str _ => none

/-- ResourcePattern::with_prefix: normalize the leading slash, parse, and
pick the pattern type; none models the Regex::new panic surface (never
taken here since the regex is kept as text). -/
def withPrefix (path : Str) (forPre : Bool) (slash : Bool) : Option ResourcePattern :=
  let path := if slash ∧ ¬ path.head? = some '/' then '/' :: path else path
  (parse path forPre).map fun pr =>
    let tp :=
      if pr.isDynamic then PatternType.dynamicP pr.re (captureNames pr.elements) pr.len
      else if forPre then PatternType.pfx pr.re
      else PatternType.staticP pr.re
    ⟨tp, ResourceType.normal, path, pr.elements⟩

/-- ResourcePattern::new. -/
def resourcePatternNew (path : Str) : Option ResourcePattern :=
  withPrefix path false (¬ path = [])

/-- ResourcePattern::prefix (the prefix-typed constructor). -/
def resourcePatternPre (path : Str) : Option ResourcePattern :=
  withPrefix path true (¬ path = [])

/-! ## Match context (src/param.rs) -/

/-- ParamItem from src/param.rs: a literal value or a (start, end) span
into the URL path (u16 offsets in the source). -/
inductive ParamItem where
  | staticI (s : Str)
  | urlSegment (s e : Nat)
deriving DecidableEq, Repr

/-- Params from src/param.rs: the tail cursor and the (name, item) list.
The url field of the source is the request URI the spans point into; here
the path is passed explicitly where a span is resolved. -/
structure ParamsM where
  tail : Nat
  segments : List (Str × ParamItem)
deriving DecidableEq, Repr

/-- Params::with_uri: tail 0 and no segments. -/
def ParamsM.withUri : ParamsM := ⟨0, []⟩

/-- The substring of a path between two offsets. -/
def slice (p : Str) (s e : Nat) : Str := (p.take e).drop s

/-- Resolution of a parameter value against the URL path, as in
Params::get: a static item is its literal, a url segment is the span
substring. -/
def ParamItem.resolve (path : Str) : ParamItem → Str
  | ParamItem.staticI s => s
  | ParamItem.urlSegment s e => slice path s e

/-! ## Pattern matching operations (src/pattern.rs) -/

/-- The external regex crate, abstracted: an engine maps a regex source
text and an input string to the capture groups of a match when one
exists.  Group 0 (the whole match) comes first, exactly as the capture
iterator of the crate yields it; a group that did not participate is
none. -/
abbrev Engine := Str → Str → Option (List (Option (Nat × Nat)))

/-- An engine with no matches at all (used where the dynamic branch is
irrelevant). -/
def noEngine : Engine := fun _ _ => none

/-- ResourcePattern::is_match.  Static compares for equality, Dynamic asks
the regex, Prefix is a plain starts_with test. -/
def isMatch (eng : Engine) (pat : ResourcePattern) (path : Str) : Bool :=
  match pat.tp with
  | PatternType.staticP s => s = path
  | PatternType.dynamicP re _ _ => (eng re path).isSome
  | PatternType.pfx s => s.isPrefixOf path

/-- The pos accumulation of the capture loops: the end offset of the last
participating capture group after the first (the first participating
group, group 0, only flips the passed flag). -/
def lastPos : List (Option (Nat × Nat)) → Bool → Nat → Nat
  | [], _, pos => pos
  | none :: rest, passed, pos => lastPos rest passed pos
  | some m :: rest, passed, pos =>
    if passed then lastPos rest true m.2 else lastPos rest true pos

/-- ResourcePattern::is_prefix_match.  Note that plen is taken before the
empty path is replaced by the root path. -/
def isPrefixMatch (eng : Engine) (pat : ResourcePattern) (path : Str) : Option Nat :=
  let plen := path.length
  let path := if path.isEmpty then ['/'] else path
  match pat.tp with
  | PatternType.staticP s => if s = path then some plen else none
  | PatternType.dynamicP re _ len =>
    match eng re path with
    | some captures => some (plen + lastPos captures false 0 + len)
    | none => none
  | PatternType.pfx s =>
    if path = s then some (min plen s.length)
    else if s.isPrefixOf path ∧
        (s.getLast? = some '/' ∨ (path.drop s.length).head? = some '/') then
      some (min plen (if s.getLast? = some '/' then s.length - 1 else s.length))
    else none

/-- The capture loop of ResourcePattern::match_with_params: skip the first
participating group, then pair each later participating group with the
next capture name, recording the span shifted by the consumed length and
cast to u16.  none models the panic of the names[idx] index when the
names run out. -/
def collectDyn (plen : Nat) (names : List Str) (caps : List (Option (Nat × Nat)))
    (passed : Bool) : Option (List (Str × ParamItem)) :=
  match caps with
  | [] => some []
  | none :: rest => collectDyn plen names rest passed
  | some m :: rest =>
    if passed then
      match names with
      | [] => none
      | n :: ns =>
        (collectDyn plen ns rest true).map fun tl =>
          (n, ParamItem.urlSegment ((plen + m.1) % 65536) ((plen + m.2) % 65536)) :: tl
    else collectDyn plen names rest true

/-- ResourcePattern::match_with_params: match the path suffix from the
consumed length against the pattern.  Static and Prefix produce an empty
parameter set; Dynamic records one parameter per participating capture
group after group 0 and sets tail to the full path length (as u16). -/
def matchWithParams (eng : Engine) (pat : ResourcePattern) (req : Request)
    (plen : Nat) : Option ParamsM :=
  let path := req.path.drop plen
  match pat.tp with
  | PatternType.staticP s =>
    if ¬ s = path then none else some ParamsM.withUri
  | PatternType.dynamicP re names _ =>
    match eng re path with
    | some captures =>
      match collectDyn plen names captures false with
      | some segs => some ⟨req.path.length % 65536, segs⟩
      | none => none
    | none => none
  | PatternType.pfx s =>
    if ¬ s.isPrefixOf path then none else some ParamsM.withUri

/-- The capture loop of ResourcePattern::match_prefix_with_params: as
collectDyn, but also tracking the pos cursor (end of the last recorded
group). -/
def collectDynPre (plen : Nat) (names : List Str) (caps : List (Option (Nat × Nat)))
    (passed : Bool) (pos : Nat) : Option (List (Str × ParamItem) × Nat) :=
  match caps with
  | [] => some ([], pos)
  | none :: rest => collectDynPre plen names rest passed pos
  | some m :: rest =>
    if passed then
      match names with
      | [] => none
      | n :: ns =>
        (collectDynPre plen ns rest true m.2).map fun out =>
          ((n, ParamItem.urlSegment ((plen + m.1) % 65536) ((plen + m.2) % 65536)) :: out.1,
           out.2)
    else collectDynPre plen names rest true pos

/-- ResourcePattern::match_prefix_with_params: like match_with_params but
the empty suffix is replaced by the root path before matching and the
tail cursor marks where the unconsumed suffix begins. -/
def matchPrefixWithParams (eng : Engine) (pat : ResourcePattern) (req : Request)
    (plen : Nat) : Option ParamsM :=
  let path := req.path.drop plen
  let path := if path.isEmpty then ['/'] else path
  match pat.tp with
  | PatternType.staticP s =>
    if s = path then some ⟨req.path.length % 65536, []⟩ else none
  | PatternType.dynamicP re names len =>
    match eng re path with
    | some captures =>
      match collectDynPre plen names captures false 0 with
      | some out => some ⟨(plen + out.2 + len) % 65536, out.1⟩
      | none => none
    | none => none
  | PatternType.pfx s =>
    if path = s then
      some ⟨min req.path.length (plen + s.length) % 65536, []⟩
    else if s.isPrefixOf path ∧
        (s.getLast? = some '/' ∨ (path.drop s.length).head? = some '/') then
      let len := if s.getLast? = some '/' then s.length - 1 else s.length
      some ⟨min req.path.length (plen + len) % 65536, []⟩
    else none

/-! ## Filters (src/filter.rs) -/

/-- The filters of src/filter.rs used by route registration: the method
filter, the header filter and the host filter (combinators are not needed
by the claims).  hostF carries the host string and the optional scheme
set by HostFilter::scheme. -/
inductive FilterM where
  | methodF (m : Method)
  | headerF (name value : Str)
  | hostF (host : Str) (scheme : Option Str)
deriving DecidableEq, Repr

/-- Lookup of a header value by name, as HeaderMap::get. -/
def lookupHeader (headers : List (Str × Str)) (name : Str) : Option Str :=
  (headers.find? fun h => h.1 = name).map Prod.snd

/-- Filter::check for the embedded filters.  MethodFilter compares the
request method; HeaderFilter compares the named header value;
HostFilter::check is a commented-out body that returns false
unconditionally. -/
def FilterM.check (f : FilterM) (r : Request) : Bool :=
  match f with
  | FilterM.methodF m => r.method = m
  | FilterM.headerF name value =>
    match lookupHeader r.headers name with
    | some v => v = value
    | none => false
  | FilterM.hostF _ _ => false

/-- The Host filter constructor (pub fn Host): scheme starts as None. -/
def hostFilter (h : Str) : FilterM := FilterM.hostF h none

/-- RouteService::check from src/route.rs: every attached filter must
pass; the loop returns false at the first failing filter. -/
def routeCheck : List FilterM → Request → Bool
  | [], _ => true
  | f :: fs, r => if f.check r then routeCheck fs r else false

/-! ## Route and resource builders (src/route.rs, src/resource.rs) -/

/-- Route from src/route.rs: the boxed handler service (abstract here)
plus the attached filters. -/
structure RouteM (σ : Type) where
  service : σ
  filters : List FilterM

/-- RouteBuilder from src/route.rs. -/
structure RouteBuilderM where
  filters : List FilterM
deriving DecidableEq, Repr

/-- RouteBuilder::new. -/
def RouteBuilderM.new : RouteBuilderM := ⟨[]⟩

/-- RouteBuilder::method: push a method filter. -/
def RouteBuilderM.method (b : RouteBuilderM) (m : Method) : RouteBuilderM :=
  ⟨b.filters ++ [FilterM.methodF m]⟩

/-- Route::build. -/
def routeBuild : RouteBuilderM := RouteBuilderM.new

/-- Route::get. -/
def routeGet : RouteBuilderM := RouteBuilderM.new.method Method.GET

/-- Route::post. -/
def routePost : RouteBuilderM := RouteBuilderM.new.method Method.POST

/-- Route::put. -/
def routePut : RouteBuilderM := RouteBuilderM.new.method Method.PUT

/-- Route::delete. -/
def routeDelete : RouteBuilderM := RouteBuilderM.new.method Method.DELETE

/-- ResourceBuilder from src/resource.rs. -/
structure ResourceBuilderM (σ : Type) where
  routes : List (RouteM σ)

/-- ResourceBuilder::route: register a route from a plain builder. -/
def ResourceBuilderM.route (b : ResourceBuilderM σ) (f : RouteBuilderM → RouteM σ) :
    ResourceBuilderM σ := ⟨b.routes ++ [f routeBuild]⟩

/-- ResourceBuilder::get: register a route from Route::get(). -/
def ResourceBuilderM.get (b : ResourceBuilderM σ) (f : RouteBuilderM → RouteM σ) :
    ResourceBuilderM σ := ⟨b.routes ++ [f routeGet]⟩

/-- ResourceBuilder::post: the source body also passes Route::get() to the
closure (src/resource.rs line 183). -/
def ResourceBuilderM.post (b : ResourceBuilderM σ) (f : RouteBuilderM → RouteM σ) :
    ResourceBuilderM σ := ⟨b.routes ++ [f routeGet]⟩

/-- ResourceBuilder::put: the source body also passes Route::get() (line
192). -/
def ResourceBuilderM.put (b : ResourceBuilderM σ) (f : RouteBuilderM → RouteM σ) :
    ResourceBuilderM σ := ⟨b.routes ++ [f routeGet]⟩

/-- ResourceBuilder::delete: the source body also passes Route::get()
(line 201). -/
def ResourceBuilderM.delete (b : ResourceBuilderM σ) (f : RouteBuilderM → RouteM σ) :
    ResourceBuilderM σ := ⟨b.routes ++ [f routeGet]⟩

/-- ResourceBuilder::head: the source body also passes Route::get() (line
210). -/
def ResourceBuilderM.head (b : ResourceBuilderM σ) (f : RouteBuilderM → RouteM σ) :
    ResourceBuilderM σ := ⟨b.routes ++ [f routeGet]⟩

/-- ResourceBuilder::method: register a route with a method filter for
the given method. -/
def ResourceBuilderM.methodR (b : ResourceBuilderM σ) (m : Method)
    (f : RouteBuilderM → RouteM σ) : ResourceBuilderM σ :=
  ⟨b.routes ++ [f (routeBuild.method m)]⟩

/-! ## Router service dispatch (src/router.rs) -/

/-- An HttpService handle as used by RouterService::call: given a request
it either accepts and yields a response future (of type φ) or declines and
returns the request back. -/
abbrev Handler (φ : Type) := Request → Except Request φ

/-- The eventual value of a BoxedResponse future: an Ok response or the
unit error of the router's erased error type. -/
abbrev RespFut := Except Unit Response

/-- The default service installed by Router::new: fn not_found, returning
a ready 404 response. -/
def notFoundSvc : Request → RespFut := fun _ => Except.ok Response.notFoundR

/-- The router's configuration: the registered services in registration
order and the default service (src/router.rs Router). -/
structure RouterM (φ : Type) where
  services : List (Handler φ)
  dfltSvc : Request → φ

/-- Router::new: no services and the not_found default. -/
def routerNew : RouterM RespFut := ⟨[], notFoundSvc⟩

/-- RouterService::call: try each service's handle in registration order;
the first Ok future is returned, a declined request is threaded to the
next service, and when every service has declined the default service is
called with the remaining request. -/
def routerServiceCall : List (Handler φ) → (Request → φ) → Request → φ
  | [], d, req => d req
  | s :: rest, d, req =>
    match s req with
    | Except.ok fut => fut
    | Except.error req2 => routerServiceCall rest d req2

/-- The request threaded through a run of consecutive declines: some req2
when every listed service declines (req2 the final returned request),
none when some service accepts. -/
def declineAll : List (Handler φ) → Request → Option Request
  | [], req => some req
  | s :: rest, req =>
    match s req with
    | Except.ok _ => none
    | Except.error req2 => declineAll rest req2

/-! ## The router build future (src/router.rs RouterFut) -/

/-- Async from the futures crate: the outcome of one poll. -/
inductive PollRes (α : Type) where
  | ready (a : α)
  | notReady
deriving Repr

/-- The result of polling a slot's build future once: an error aborts the
aggregate build, otherwise the slot is Ready or NotReady. -/
abbrev PollOutcome (α : Type) := Except Unit (PollRes α)

/-- RouterFutItem: a slot still holding its build future or an already
promoted service.  For a single invocation of poll, a pending future is
represented by the outcome it produces when polled now. -/
inductive FutItem (σ α : Type) where
  | fut (f : σ)
  | svc (s : α)

/-- The assembled RouterService produced by a completed build: the
services in slot order plus the default service. -/
structure RouterServiceM (α δ : Type) where
  services : List α
  dfltSvc : δ

/-- RouterFut: the slots, the promoted default service if already
resolved, and the default build future. -/
structure RouterFutM (α δ : Type) where
  fut : List (FutItem (PollOutcome α) α)
  dflt : Option δ
  dfltFut : PollOutcome δ

/-- The default-service part of one RouterFut::poll: an already promoted
default stays; otherwise its future is polled and a NotReady clears the
done flag. -/
def pollDflt (st : RouterFutM α δ) : Except Unit (Option δ × Bool) :=
  match st.dflt with
  | some d => Except.ok (some d, true)
  | none =>
    match st.dfltFut with
    | Except.error e => Except.error e
    | Except.ok (PollRes.ready s) => Except.ok (some s, true)
    | Except.ok PollRes.notReady => Except.ok (none, false)

/-- The slot loop of RouterFut::poll: poll each still pending slot in
order, promote the ready ones, clear the done flag on any NotReady, and
propagate the first error immediately. -/
def pollItems : List (FutItem (PollOutcome α) α) →
    Except Unit (List (FutItem (PollOutcome α) α) × Bool)
  | [] => Except.ok ([], true)
  | FutItem.svc s :: rest =>
    (pollItems rest).map fun out => (FutItem.svc s :: out.1, out.2)
  | FutItem.fut o :: rest =>
    match o with
    | Except.error e => Except.error e
    | Except.ok (PollRes.ready s) =>
      (pollItems rest).map fun out => (FutItem.svc s :: out.1, out.2)
    | Except.ok PollRes.notReady =>
      (pollItems rest).map fun out => (FutItem.fut o :: out.1, false)

/-- The drain step of RouterFut::poll once done: every slot must hold a
service; none models the unreachable! arm. -/
def collectSvcs : List (FutItem σ α) → Option (List α)
  | [] => some []
  | FutItem.svc s :: rest => (collectSvcs rest).map (s :: ·)
  | FutItem.fut _ :: _ => none

/-- One invocation of RouterFut::poll: poll the default slot, then every
route slot; if every slot including the default is resolved the
RouterService is assembled and returned Ready, otherwise NotReady.  The
outer none models the unreachable!/expect panics of the drain (shown
never to fire). -/
def routerFutPoll (st : RouterFutM α δ) :
    Option (Except Unit (PollRes (RouterServiceM α δ))) :=
  match pollDflt st with
  | Except.error e => some (Except.error e)
  | Except.ok (dI, dDone) =>
    match pollItems st.fut with
    | Except.error e => some (Except.error e)
    | Except.ok (items, itemsDone) =>
      if dDone && itemsDone then
        match collectSvcs items, dI with
        | some svcs, some d => some (Except.ok (PollRes.ready ⟨svcs, d⟩))
        | _, _ => none
      else some (Except.ok PollRes.notReady)

/-! ## The application factory cell (src/app.rs) -/

/-- AppFactory: the route table (pattern, boxed factory) pairs and the
application filters, as captured from the App by into_new_service. -/
structure AppFactoryM (σ : Type) where
  services : List (Str × σ)
  filters : List FilterM

/-- CreateAppService as produced by AppFactory::new_service: one pending
slot per registered service, plus the filters (None when empty). -/
structure CreateAppServiceM (σ : Type) where
  fut : List (Str × σ)
  filters : Option (List FilterM)

/-- AppFactory::new_service. -/
def appFactoryNewService (f : AppFactoryM σ) : CreateAppServiceM σ :=
  ⟨f.services, if f.filters.isEmpty then none else some f.filters⟩

/-- AppEndpoint::new_service: read the shared forward-reference cell and
build from the injected factory; the error models the unwrap panic when
the cell still holds None. -/
def appEndpointNewService (cell : Option (AppFactoryM σ)) :
    Except String (CreateAppServiceM σ) :=
  match cell with
  | none => Except.error "called Option::unwrap on a None value"
  | some f => Except.ok (appFactoryNewService f)

/-- The App builder state relevant to into_new_service: the registered
services, the optional application default service, the per-resource
default cells, the filters and the shared factory cell. -/
structure AppM (σ τ : Type) where
  services : List (Str × σ)
  dflt : Option τ
  dflts : List (Option τ)
  filters : List FilterM
  factoryRef : Option (AppFactoryM σ)

/-- App::into_new_service: propagate the application default service into
the unset per-resource default cells, then store the AppFactory into the
shared forward-reference cell (the single injection). -/
def intoNewService (app : AppM σ τ) : AppM σ τ :=
  let dflts :=
    if app.dflt.isSome then
      app.dflts.map fun c => if c.isNone then app.dflt else c
    else app.dflts
  { app with dflts := dflts, factoryRef := some ⟨app.services, app.filters⟩ }

/-! ## Concrete instances used for evaluation -/

/-- The leading-slash normalization that ResourcePattern::new applies to a
template before parsing (insert a slash when the template is nonempty and
does not already start with one). -/
def normLead (t : Str) : Str :=
  if ¬ t = [] ∧ ¬ t.head? = some '/' then '/' :: t else t

/-- The template /v/\x7btail:.*\x7d (a dynamic segment with the custom
sub-pattern .*). -/
def vtailTemplate : Str := "/v/\x7btail:.*\x7d".data

/-- The regex text that parse produces for vtailTemplate. -/
def vtailRe : Str := "^/v/(?P<tail>.*)$".data

/-- The regex crate on the vtail regex: anchored at both ends, the single
capture group takes the whole remainder after /v/ (the dot of the crate
matches every character except a newline). -/
def vtailEngine : Engine := fun re input =>
  if re = vtailRe then
    if "/v/".data.isPrefixOf input ∧ ¬ '\n' ∈ input.drop 3 then
      some [some (0, input.length), some (3, input.length)]
    else none
  else none

/-- The template /user/\x7bid\x7d (one dynamic segment with the default
sub-pattern). -/
def userIdTemplate : Str := "/user/\x7bid\x7d".data

/-- The regex text that parse produces for userIdTemplate. -/
def userIdRe : Str := "^/user/(?P<id>[^/]+)$".data

/-- The regex crate on the userId regex: anchored at both ends, the
capture group takes the nonempty slash-free remainder after /user/. -/
def userIdEngine : Engine := fun re input =>
  if re = userIdRe then
    if "/user/".data.isPrefixOf input ∧ 6 < input.length ∧ ¬ '/' ∈ input.drop 6 then
      some [some (0, input.length), some (6, input.length)]
    else none
  else none

/-- A sample GET request used by witnesses. -/
def reqW : Request := ⟨Method.GET, "/x".data, []⟩

/-! ## Theorems -/

/-- C1: RouterService::call is first-match-wins in registration order:
when every service before some service s declines (threading the request
through), and s accepts the threaded request with future fut, the call
returns fut whatever services follow s and whatever the default service
is — so the services after the first accepting one are never invoked, and
of two entries accepting the same request the earlier-registered one
serves it. -/
theorem routerCall_first_match_wins {φ : Type} (pre : List (Handler φ))
    (s : Handler φ) (req req2 : Request) (fut : φ)
    (hpre : declineAll pre req = some req2)
    (hs : s req2 = Except.ok fut) :
    ∀ (post : List (Handler φ)) (d : Request → φ),
      routerServiceCall (pre ++ s :: post) d req = fut := by
  induction pre generalizing req with
  | nil =>
    intro post d
    simp only [declineAll, Option.some.injEq] at hpre
    subst hpre
    simp [routerServiceCall, hs]
  | cons p ps ih =>
    intro post d
    simp only [declineAll] at hpre
    cases hp : p req with
    | ok f => rw [hp] at hpre; simp at hpre
    | error r2 =>
      rw [hp] at hpre
      simp only [List.cons_append, routerServiceCall, hp]
      exact ih r2 hpre post d

/-- Witness for C1: with a declining service first and two accepting
services after it, the call returns the future of the earlier accepting
service (7, not 9). -/
theorem routerCall_first_match_wins_witness :
    routerServiceCall
      [fun r => Except.error r, fun _ => Except.ok 7, fun _ => Except.ok 9]
      (fun _ => 0) reqW = 7 :=
  routerCall_first_match_wins [fun r => Except.error r] (fun _ => Except.ok 7)
    reqW reqW 7 rfl rfl [fun _ => Except.ok 9] (fun _ => 0)

/-- C6: an unmatched request is not an error: when every registered
service declines by returning the request back, RouterService::call
passes the original request to the default service, and with the default
installed by Router::new the result is a ready Ok 404 response, never an
error of the call. -/
theorem unmatched_request_falls_through (services : List (Handler RespFut))
    (req : Request) (h : ∀ s ∈ services, s req = Except.error req) :
    (∀ d : Request → RespFut, routerServiceCall services d req = d req) ∧
    routerServiceCall services routerNew.dfltSvc req = Except.ok Response.notFoundR := by
  have key : ∀ (l : List (Handler RespFut)),
      (∀ s ∈ l, s req = Except.error req) →
      ∀ d : Request → RespFut, routerServiceCall l d req = d req := by
    intro l
    induction l with
    | nil => intro _ d; rfl
    | cons s rest ih =>
      intro hl d
      have hs : s req = Except.error req := hl s (List.mem_cons_self s rest)
      simp only [routerServiceCall, hs]
      exact ih (fun s2 hs2 => hl s2 (List.mem_cons_of_mem s hs2)) d
  refine ⟨key services h, ?_⟩
  rw [key services h]
  rfl

/-- Witness for C6: a registered service that accepts the path /name but
declines /unknown (the no-match case of spec scenario 5), with the
Router::new default: the call on /unknown yields the 404 response. -/
theorem unmatched_request_falls_through_witness :
    routerServiceCall
      [fun r => if r.path = "/name".data then Except.ok (Except.ok ⟨200⟩)
        else Except.error r]
      routerNew.dfltSvc ⟨Method.GET, "/unknown".data, []⟩ =
      Except.ok Response.notFoundR :=
  (unmatched_request_falls_through
    [fun r => if r.path = "/name".data then Except.ok (Except.ok ⟨200⟩)
      else Except.error r]
    ⟨Method.GET, "/unknown".data, []⟩
    (by
      intro s hs
      simp only [List.mem_singleton] at hs
      subst hs
      exact if_neg (by decide))).2

/-- C8: building the application endpoint before the route-table factory
has been injected into the shared cell is the unwrap panic; after
into_new_service has stored the factory, new_service succeeds with the
factory built from the registered services and filters, so the panic
branch is unreachable once injection has happened. -/
theorem factory_cell_injection {σ τ : Type} (app : AppM σ τ) :
    appEndpointNewService (σ := σ) none =
      Except.error "called Option::unwrap on a None value" ∧
    appEndpointNewService (intoNewService app).factoryRef =
      Except.ok (appFactoryNewService ⟨app.services, app.filters⟩) :=
  ⟨rfl, rfl⟩

/-- C9: HostFilter::check returns false for every host string and every
request (its body is commented out), so a route whose filter list
contains a Host filter never passes the route check. -/
theorem host_filter_always_false (h : Str) (sch : Option Str) (r : Request)
    (fs : List FilterM) :
    (FilterM.hostF h sch).check r = false ∧ (hostFilter h).check r = false ∧
    (FilterM.hostF h sch ∈ fs → routeCheck fs r = false) := by
  refine ⟨rfl, rfl, ?_⟩
  intro hmem
  induction fs with
  | nil => simp at hmem
  | cons g gs ih =>
    cases List.mem_cons.mp hmem with
    | inl heq =>
      rw [← heq]
      simp [routeCheck, FilterM.check]
    | inr htl =>
      cases hc : g.check r with
      | false => simp [routeCheck, hc]
      | true => simp only [routeCheck, hc, if_true]; exact ih htl

/-- Witness for C9: a route gated only by a Host filter fails the route
check on a sample request. -/
theorem host_filter_always_false_witness :
    routeCheck [FilterM.hostF "www.rust-lang.org".data none] reqW = false :=
  (host_filter_always_false "www.rust-lang.org".data none reqW
    [FilterM.hostF "www.rust-lang.org".data none]).2.2 (List.mem_singleton.mpr rfl)

/-- C10: the resource-builder methods post, put, delete and head each
register the route built from Route::get(), identical to what get
registers: a route whose builder carries exactly the GET method filter,
and that filter accepts a request exactly when its method is GET. -/
theorem builder_methods_all_register_get {σ : Type} (b : ResourceBuilderM σ)
    (f : RouteBuilderM → RouteM σ) (r : Request) :
    b.post f = b.get f ∧ b.put f = b.get f ∧ b.delete f = b.get f ∧
    b.head f = b.get f ∧
    (b.get f).routes = b.routes ++ [f routeGet] ∧
    routeGet.filters = [FilterM.methodF Method.GET] ∧
    (FilterM.methodF Method.GET).check r = decide (r.method = Method.GET) :=
  ⟨rfl, rfl, rfl, rfl, rfl, rfl, rfl⟩

/-- A build slot counts as resolved when it already holds a service or its
future polls Ready now. -/
def SlotResolved (it : FutItem (PollOutcome α) α) : Prop :=
  (∃ s, it = FutItem.svc s) ∨ ∃ s, it = FutItem.fut (Except.ok (PollRes.ready s))

theorem pollItems_of_resolved {α : Type} (l : List (FutItem (PollOutcome α) α))
    (h : ∀ it ∈ l, SlotResolved it) :
    ∃ items, pollItems l = Except.ok (items, true) ∧
      ∃ svcs, collectSvcs items = some svcs := by
  induction l with
  | nil => exact ⟨[], rfl, [], rfl⟩
  | cons it rest ih =>
    obtain ⟨items, hpi, svcs, hcs⟩ :=
      ih fun x hx => h x (List.mem_cons_of_mem it hx)
    cases h it (List.mem_cons_self it rest) with
    | inl hsvc =>
      obtain ⟨s, rfl⟩ := hsvc
      exact ⟨FutItem.svc s :: items, by simp [pollItems, hpi, Except.map],
        s :: svcs, by simp [collectSvcs, hcs]⟩
    | inr hfut =>
      obtain ⟨s, rfl⟩ := hfut
      exact ⟨FutItem.svc s :: items, by simp [pollItems, hpi, Except.map],
        s :: svcs, by simp [collectSvcs, hcs]⟩

theorem pollItems_done_resolved {α : Type} :
    ∀ (l items : List (FutItem (PollOutcome α) α)),
    pollItems l = Except.ok (items, true) → ∀ it ∈ l, SlotResolved it := by
  intro l
  induction l with
  | nil => intro items _ it hit; simp at hit
  | cons x rest ih =>
    intro items hp it hit
    cases x with
    | svc s =>
      simp only [pollItems] at hp
      cases hrest : pollItems rest with
      | error e => rw [hrest] at hp; simp [Except.map] at hp
      | ok out =>
        obtain ⟨o1, o2⟩ := out
        rw [hrest] at hp
        simp only [Except.map, Except.ok.injEq, Prod.mk.injEq] at hp
        rw [hp.2] at hrest
        cases List.mem_cons.mp hit with
        | inl hx => exact hx ▸ Or.inl ⟨s, rfl⟩
        | inr hx => exact ih o1 hrest it hx
    | fut o =>
      cases o with
      | error e => simp [pollItems] at hp
      | ok pr =>
        cases pr with
        | ready s =>
          simp only [pollItems] at hp
          cases hrest : pollItems rest with
          | error e => rw [hrest] at hp; simp [Except.map] at hp
          | ok out =>
            obtain ⟨o1, o2⟩ := out
            rw [hrest] at hp
            simp only [Except.map, Except.ok.injEq, Prod.mk.injEq] at hp
            rw [hp.2] at hrest
            cases List.mem_cons.mp hit with
            | inl hx => exact hx ▸ Or.inr ⟨s, rfl⟩
            | inr hx => exact ih o1 hrest it hx
        | notReady =>
          simp only [pollItems] at hp
          cases hrest : pollItems rest with
          | error e => rw [hrest] at hp; simp [Except.map] at hp
          | ok out =>
            rw [hrest] at hp
            simp [Except.map] at hp

theorem pollItems_no_error {α : Type} (l : List (FutItem (PollOutcome α) α))
    (hne : ¬ FutItem.fut (Except.error ()) ∈ l) :
    ∃ items d, pollItems l = Except.ok (items, d) ∧
      (d = true ↔ ¬ FutItem.fut (Except.ok PollRes.notReady) ∈ l) := by
  induction l with
  | nil => exact ⟨[], true, rfl, by simp⟩
  | cons x rest ih =>
    obtain ⟨items, d, hpi, hd⟩ := ih fun hmem => hne (List.mem_cons_of_mem x hmem)
    cases x with
    | svc s =>
      refine ⟨FutItem.svc s :: items, d, by simp [pollItems, hpi, Except.map], ?_⟩
      rw [hd]
      constructor
      · intro hn hmem
        cases List.mem_cons.mp hmem with
        | inl hx => exact FutItem.noConfusion hx
        | inr hx => exact hn hx
      · intro hn hmem; exact hn (List.mem_cons_of_mem _ hmem)
    | fut o =>
      cases o with
      | error e =>
        cases e
        exact absurd (List.mem_cons_self _ _) hne
      | ok pr =>
        cases pr with
        | ready s =>
          refine ⟨FutItem.svc s :: items, d,
            by simp [pollItems, hpi, Except.map], ?_⟩
          rw [hd]
          constructor
          · intro hn hmem
            cases List.mem_cons.mp hmem with
            | inl hx =>
              injection hx with hx
              exact Except.noConfusion hx fun hh => PollRes.noConfusion hh
            | inr hx => exact hn hx
          · intro hn hmem; exact hn (List.mem_cons_of_mem _ hmem)
        | notReady =>
          refine ⟨FutItem.fut (Except.ok PollRes.notReady) :: items, false,
            by simp [pollItems, hpi, Except.map], ?_⟩
          simp

/-- C7: build-then-serve.  One invocation of RouterFut::poll yields the
assembled router service exactly when every route slot and the default
slot is resolved (already promoted, or its future polls Ready on this
invocation); and when no slot errors but some slot is unresolved, the
poll returns NotReady, so no request can be dispatched before every
registered build has resolved. -/
theorem build_then_serve {α δ : Type} (st : RouterFutM α δ) :
    ((∃ r, routerFutPoll st = some (Except.ok (PollRes.ready r))) ↔
      ((st.dflt.isSome = true ∨ ∃ d, st.dfltFut = Except.ok (PollRes.ready d)) ∧
        ∀ it ∈ st.fut, SlotResolved it)) ∧
    (((st.dflt = none ∧ st.dfltFut = Except.ok PollRes.notReady) ∨
        FutItem.fut (Except.ok PollRes.notReady) ∈ st.fut) →
      (st.dflt = none → ¬ st.dfltFut = Except.error ()) →
      ¬ FutItem.fut (Except.error ()) ∈ st.fut →
      routerFutPoll st = some (Except.ok PollRes.notReady)) := by
  obtain ⟨futL, dfltO, dfltF⟩ := st
  constructor
  · constructor
    · rintro ⟨r, hr⟩
      cases hpi : pollItems futL with
      | error e =>
        cases dfltO with
        | some d => simp [routerFutPoll, pollDflt, hpi] at hr
        | none =>
          cases dfltF with
          | error e2 => simp [routerFutPoll, pollDflt] at hr
          | ok pr =>
            cases pr <;> simp [routerFutPoll, pollDflt, hpi] at hr
      | ok out =>
        obtain ⟨items, itemsDone⟩ := out
        have hresolved : itemsDone = true → ∀ it ∈ futL, SlotResolved it :=
          fun hy => pollItems_done_resolved futL items (hy ▸ hpi)
        cases dfltO with
        | some d =>
          simp only [routerFutPoll, pollDflt, hpi] at hr
          cases hid : itemsDone with
          | false => rw [hid] at hr; simp at hr
          | true =>
            exact ⟨Or.inl rfl, hresolved hid⟩
        | none =>
          cases dfltF with
          | error e2 => simp [routerFutPoll, pollDflt] at hr
          | ok pr =>
            cases pr with
            | ready s =>
              simp only [routerFutPoll, pollDflt, hpi] at hr
              cases hid : itemsDone with
              | false => rw [hid] at hr; simp at hr
              | true => exact ⟨Or.inr ⟨s, rfl⟩, hresolved hid⟩
            | notReady =>
              simp [routerFutPoll, pollDflt, hpi] at hr
    · rintro ⟨hdflt, hres⟩
      obtain ⟨items, hpi, svcs, hcs⟩ := pollItems_of_resolved futL hres
      cases dfltO with
      | some d =>
        exact ⟨⟨svcs, d⟩, by simp [routerFutPoll, pollDflt, hpi, hcs]⟩
      | none =>
        cases hdflt with
        | inl hsome => simp at hsome
        | inr hready =>
          obtain ⟨d, hd⟩ := hready
          simp only at hd
          subst hd
          exact ⟨⟨svcs, d⟩, by simp [routerFutPoll, pollDflt, hpi, hcs]⟩
  · intro hunres hnde hni
    obtain ⟨items, d, hpi, hd⟩ := pollItems_no_error futL hni
    cases hunres with
    | inl hdpend =>
      obtain ⟨h1, h2⟩ := hdpend
      simp only at h1 h2
      subst h1; subst h2
      simp [routerFutPoll, pollDflt, hpi]
    | inr hmem =>
      have hdfalse : d = false := by
        cases h2 : d
        · rfl
        · exact absurd hmem (hd.mp h2)
      subst hdfalse
      cases dfltO with
      | some d2 => simp [routerFutPoll, pollDflt, hpi]
      | none =>
        cases hff : dfltF with
        | error e =>
          cases e
          exact absurd (by simp only; exact hff) (hnde rfl)
        | ok pr =>
          subst hff
          cases pr <;> simp [routerFutPoll, pollDflt, hpi]

/-- Witness for C7: a state with one promoted slot, one slot whose future
polls Ready and a ready default future assembles on this poll. -/
theorem build_then_serve_witness :
    ∃ r, routerFutPoll (α := Nat) (δ := Nat)
      ⟨[FutItem.svc 1, FutItem.fut (Except.ok (PollRes.ready 2))], none,
        Except.ok (PollRes.ready 5)⟩ = some (Except.ok (PollRes.ready r)) :=
  (build_then_serve _).1.mpr
    ⟨Or.inr ⟨5, rfl⟩, by
      intro it hit
      cases List.mem_cons.mp hit with
      | inl hx => exact Or.inl ⟨1, hx⟩
      | inr hx =>
        cases List.mem_cons.mp hx with
        | inl hy => exact Or.inr ⟨2, hy⟩
        | inr hy => exact absurd hy (List.not_mem_nil it)⟩

theorem parse_no_brace (t : Str) (forPre : Bool) (h : ¬ lbrace ∈ t) :
    parse t forPre = some ⟨t, [PatternElement.str t], false, t.length⟩ := by
  simp [parse, h]

theorem normLead_no_brace (t : Str) (h : ¬ lbrace ∈ t) : ¬ lbrace ∈ normLead t := by
  unfold normLead
  split
  · intro hc
    cases List.mem_cons.mp hc with
    | inl hx => exact absurd hx (by decide)
    | inr hx => exact h hx
  · exact h

theorem withPrefix_no_brace (t : Str) (forPre slash : Bool) (h : ¬ lbrace ∈ t)
    (hn : ¬ lbrace ∈ (if slash = true ∧ ¬ t.head? = some '/' then '/' :: t else t)) :
    withPrefix t forPre slash = some
      ⟨if forPre then
          PatternType.pfx (if slash = true ∧ ¬ t.head? = some '/' then '/' :: t else t)
        else
          PatternType.staticP (if slash = true ∧ ¬ t.head? = some '/' then '/' :: t else t),
        ResourceType.normal,
        if slash = true ∧ ¬ t.head? = some '/' then '/' :: t else t,
        [PatternElement.str (if slash = true ∧ ¬ t.head? = some '/' then '/' :: t else t)]⟩ := by
  unfold withPrefix
  simp only [parse_no_brace _ forPre hn, Option.map_some']
  cases forPre <;> simp

theorem resourcePatternNew_no_brace (t : Str) (h : ¬ lbrace ∈ t) :
    resourcePatternNew t = some ⟨PatternType.staticP (normLead t),
      ResourceType.normal, normLead t, [PatternElement.str (normLead t)]⟩ := by
  have hcond : (if (decide (¬ t = [])) = true ∧ ¬ t.head? = some '/' then '/' :: t else t) =
      normLead t := by
    unfold normLead
    by_cases h1 : t = [] <;> by_cases h2 : t.head? = some '/' <;> simp [h1, h2]
  unfold resourcePatternNew
  rw [withPrefix_no_brace t false (decide (¬ t = [])) h (by rw [hcond]; exact normLead_no_brace t h)]
  rw [hcond]
  rfl

theorem resourcePatternPre_no_brace (t : Str) (h : ¬ lbrace ∈ t) :
    resourcePatternPre t = some ⟨PatternType.pfx (normLead t),
      ResourceType.normal, normLead t, [PatternElement.str (normLead t)]⟩ := by
  have hcond : (if (decide (¬ t = [])) = true ∧ ¬ t.head? = some '/' then '/' :: t else t) =
      normLead t := by
    unfold normLead
    by_cases h1 : t = [] <;> by_cases h2 : t.head? = some '/' <;> simp [h1, h2]
  unfold resourcePatternPre
  rw [withPrefix_no_brace t true (decide (¬ t = [])) h (by rw [hcond]; exact normLead_no_brace t h)]
  rw [hcond]
  rfl

/-- C4: a Static pattern built from a brace-free template matches exactly
the template itself, after the leading-slash normalization applied at
construction; in particular /name and /name/ are distinct templates whose
patterns do not match each other's path. -/
theorem static_pattern_match_iff (eng : Engine) (t : Str) (h : ¬ lbrace ∈ t) :
    ∃ pat, resourcePatternNew t = some pat ∧
      pat.tp = PatternType.staticP (normLead t) ∧
      ∀ p, isMatch eng pat p = true ↔ p = normLead t := by
  refine ⟨_, resourcePatternNew_no_brace t h, rfl, ?_⟩
  intro p
  simp only [isMatch, decide_eq_true_eq]
  exact eq_comm

/-- Witness for C4: the /name template, whose static pattern matches
exactly the path /name. -/
theorem static_pattern_match_iff_witness :
    ∃ pat, resourcePatternNew ("/name".data) = some pat ∧
      pat.tp = PatternType.staticP (normLead ("/name".data)) ∧
      ∀ p, isMatch noEngine pat p = true ↔ p = normLead ("/name".data) :=
  static_pattern_match_iff noEngine "/name".data (by decide)

/-- Counterexample for C2 as stated: the Prefix pattern for /name does
match the path /name2 under is_match — the claim asserts this is false,
but is_match on a Prefix pattern is a plain starts_with test with no
boundary check. -/
theorem pre_is_match_counterexample :
    (resourcePatternPre ("/name".data)).map
      (fun pat => (pat.tp, isMatch noEngine pat ("/name2".data))) =
    some (PatternType.pfx ("/name".data), true) := by decide

theorem isPrefixMatch_pfx_isSome (eng : Engine) (rtp : ResourceType)
    (patt : Str) (elems : List PatternElement) (s p : Str) :
    (isPrefixMatch eng ⟨PatternType.pfx s, rtp, patt, elems⟩ p).isSome = true ↔
      ((if p.isEmpty then ['/'] else p) = s ∨
        (s.isPrefixOf (if p.isEmpty then ['/'] else p) ∧
          (s.getLast? = some '/' ∨
            ((if p.isEmpty then ['/'] else p).drop s.length).head? = some '/'))) := by
  show (if (if p.isEmpty then ['/'] else p) = s then some (min p.length s.length)
      else if s.isPrefixOf (if p.isEmpty then ['/'] else p) ∧
          (s.getLast? = some '/' ∨
            ((if p.isEmpty then ['/'] else p).drop s.length).head? = some '/') then
        some (min p.length (if s.getLast? = some '/' then s.length - 1 else s.length))
      else none).isSome = true ↔ _
  by_cases h1 : (if p.isEmpty then ['/'] else p) = s
  · rw [if_pos h1]
    exact iff_of_true rfl (Or.inl h1)
  · rw [if_neg h1]
    by_cases h2 : s.isPrefixOf (if p.isEmpty then ['/'] else p) ∧
        (s.getLast? = some '/' ∨
          ((if p.isEmpty then ['/'] else p).drop s.length).head? = some '/')
    · rw [if_pos h2]
      exact iff_of_true rfl (Or.inr h2)
    · rw [if_neg h2]
      refine iff_of_false (by simp) ?_
      rintro (hc | hc)
      · exact h1 hc
      · exact h2 hc

/-- C2 (amended): on a Prefix pattern built from a brace-free template,
is_match is a plain starts_with check with no boundary requirement (so
prefix /name does match /name2), while the boundary-or-equality rule of
the claim governs is_prefix_match: it accepts exactly when the (empty
normalized to /) path equals the stored literal or extends it either at a
trailing slash of the literal or at a slash immediately after it. -/
theorem pre_pattern_semantics (eng : Engine) (t : Str) (h : ¬ lbrace ∈ t) :
    ∃ pat, resourcePatternPre t = some pat ∧
      pat.tp = PatternType.pfx (normLead t) ∧
      (∀ p, isMatch eng pat p = (normLead t).isPrefixOf p) ∧
      (∀ p, (isPrefixMatch eng pat p).isSome = true ↔
        ((if p.isEmpty then ['/'] else p) = normLead t ∨
          ((normLead t).isPrefixOf (if p.isEmpty then ['/'] else p) ∧
            ((normLead t).getLast? = some '/' ∨
              ((if p.isEmpty then ['/'] else p).drop (normLead t).length).head? =
                some '/')))) := by
  refine ⟨_, resourcePatternPre_no_brace t h, rfl, fun p => rfl, ?_⟩
  intro p
  exact isPrefixMatch_pfx_isSome eng ResourceType.normal (normLead t)
    [PatternElement.str (normLead t)] (normLead t) p

/-- Witness for C2 (amended): the /name prefix pattern: is_match accepts
/name2 while is_prefix_match rejects it and accepts /name/x. -/
theorem pre_pattern_semantics_witness :
    ∃ pat, resourcePatternPre ("/name".data) = some pat ∧
      pat.tp = PatternType.pfx (normLead ("/name".data)) ∧
      (∀ p, isMatch noEngine pat p = (normLead ("/name".data)).isPrefixOf p) ∧
      (∀ p, (isPrefixMatch noEngine pat p).isSome = true ↔
        ((if p.isEmpty then ['/'] else p) = normLead ("/name".data) ∨
          ((normLead ("/name".data)).isPrefixOf (if p.isEmpty then ['/'] else p) ∧
            ((normLead ("/name".data)).getLast? = some '/' ∨
              ((if p.isEmpty then ['/'] else p).drop
                  (normLead ("/name".data)).length).head? = some '/')))) :=
  pre_pattern_semantics noEngine "/name".data (by decide)

/-- Counterexample for C5 as stated: is_match and match_with_params do
not normalize an empty path: the static pattern for the template / fails
on the empty path but succeeds on /, so the results differ. -/
theorem empty_path_not_normalized_counterexample :
    (resourcePatternNew ("/".data)).map (fun pat => isMatch noEngine pat []) =
      some false ∧
    (resourcePatternNew ("/".data)).map
      (fun pat => isMatch noEngine pat ("/".data)) = some true ∧
    (resourcePatternNew ("/".data)).bind
      (fun pat => matchWithParams noEngine pat ⟨Method.GET, [], []⟩ 0) = none ∧
    (resourcePatternNew ("/".data)).bind
      (fun pat => matchWithParams noEngine pat ⟨Method.GET, "/".data, []⟩ 0) =
      some ParamsM.withUri := by decide

/-- C5 (amended): the empty-path-to-root normalization exists only in
is_prefix_match and match_prefix_with_params, and only for the match
decision: an empty (sliced) path matches exactly when the root path does.
is_match and match_with_params apply no such normalization (see the
counterexample). -/
theorem empty_path_normalized_in_pre_ops (eng : Engine) (pat : ResourcePattern)
    (req1 req2 : Request) (plen : Nat)
    (h1 : req1.path.drop plen = []) (h2 : req2.path.drop plen = ['/']) :
    (isPrefixMatch eng pat []).isSome = (isPrefixMatch eng pat ['/']).isSome ∧
    (matchPrefixWithParams eng pat req1 plen).isSome =
      (matchPrefixWithParams eng pat req2 plen).isSome := by
  constructor
  · cases hpt : pat.tp with
    | staticP s =>
      by_cases hs : s = ['/'] <;> simp [isPrefixMatch, hpt, hs]
    | dynamicP re names len =>
      cases hcap : eng re ['/'] <;> simp [isPrefixMatch, hpt, hcap]
    | pfx s =>
      simp only [isPrefixMatch, hpt]
      simp only [List.isEmpty_nil, List.isEmpty_cons, if_true, if_false]
      split_ifs <;> simp
  · cases hpt : pat.tp with
    | staticP s =>
      by_cases hs : s = ['/'] <;> simp [matchPrefixWithParams, hpt, h1, h2, hs]
    | dynamicP re names len =>
      cases hcap : eng re ['/'] with
      | none => simp [matchPrefixWithParams, hpt, h1, h2, hcap]
      | some caps =>
        cases hcol : collectDynPre plen names caps false 0 <;>
          simp [matchPrefixWithParams, hpt, h1, h2, hcap, hcol]
    | pfx s =>
      simp only [matchPrefixWithParams, hpt, h1, h2]
      simp only [List.isEmpty_nil, List.isEmpty_cons, if_true, if_false]
      split_ifs <;> simp

/-- Witness for C5 (amended): the root static pattern, one request with
the empty path and one with the root path, both at consumed length 0. -/
theorem empty_path_normalized_in_pre_ops_witness :
    (isPrefixMatch noEngine ⟨PatternType.staticP ("/".data), ResourceType.normal,
        "/".data, [PatternElement.str ("/".data)]⟩ []).isSome =
      (isPrefixMatch noEngine ⟨PatternType.staticP ("/".data), ResourceType.normal,
        "/".data, [PatternElement.str ("/".data)]⟩ ['/']).isSome ∧
    (matchPrefixWithParams noEngine ⟨PatternType.staticP ("/".data),
        ResourceType.normal, "/".data, [PatternElement.str ("/".data)]⟩
        ⟨Method.GET, [], []⟩ 0).isSome =
      (matchPrefixWithParams noEngine ⟨PatternType.staticP ("/".data),
        ResourceType.normal, "/".data, [PatternElement.str ("/".data)]⟩
        ⟨Method.GET, "/".data, []⟩ 0).isSome :=
  empty_path_normalized_in_pre_ops noEngine _ ⟨Method.GET, [], []⟩
    ⟨Method.GET, "/".data, []⟩ 0 rfl rfl

theorem collectDyn_map_some (plen : Nat) :
    ∀ (spans : List (Nat × Nat)) (names : List Str), spans.length = names.length →
    collectDyn plen names (spans.map some) true =
      some (List.zipWith (fun n (m : Nat × Nat) =>
        (n, ParamItem.urlSegment ((plen + m.1) % 65536) ((plen + m.2) % 65536)))
        names spans) := by
  intro spans
  induction spans with
  | nil =>
    intro names hlen
    cases names with
    | nil => rfl
    | cons n ns => simp at hlen
  | cons m ms ih =>
    intro names hlen
    cases names with
    | nil => simp at hlen
    | cons n ns =>
      have hlen2 : ms.length = ns.length := by simpa using hlen
      simp [collectDyn, ih ns hlen2]

theorem slice_shift (p : Str) (a s e : Nat) :
    slice p (a + s) (a + e) = slice (p.drop a) s e := by
  unfold slice
  rw [List.drop_take, List.drop_take, List.drop_drop]
  congr 1
  omega

theorem slice_length (p : Str) (s e : Nat) :
    (slice p s e).length = min e p.length - s := by
  unfold slice
  simp [List.length_drop, List.length_take]

/-- Counterexample for C3 as stated: for the dynamic pattern compiled
from /v/\x7btail:.*\x7d (a custom sub-pattern), the matching path
/v/blah-blah/index.html yields exactly one parameter whose span resolves
to blah-blah/index.html, a substring that does contain a slash (and on
the path /v/ the same pattern yields an empty substring), refuting the
claim that every parameter substring is nonempty and slash-free. -/
theorem dynamic_match_params_counterexample :
    (resourcePatternNew vtailTemplate).map (fun pat => pat.tp) =
      some (PatternType.dynamicP vtailRe ["tail".data] 0) ∧
    (resourcePatternNew vtailTemplate).bind
      (fun pat => matchWithParams vtailEngine pat
        ⟨Method.GET, "/v/blah-blah/index.html".data, []⟩ 0) =
      some ⟨23, [("tail".data, ParamItem.urlSegment 3 23)]⟩ ∧
    (ParamItem.urlSegment 3 23).resolve ("/v/blah-blah/index.html".data) =
      "blah-blah/index.html".data ∧
    '/' ∈ (ParamItem.urlSegment 3 23).resolve ("/v/blah-blah/index.html".data) ∧
    (resourcePatternNew vtailTemplate).bind
      (fun pat => matchWithParams vtailEngine pat ⟨Method.GET, "/v/".data, []⟩ 0) =
      some ⟨3, [("tail".data, ParamItem.urlSegment 3 3)]⟩ ∧
    (ParamItem.urlSegment 3 3).resolve ("/v/".data) = [] := by decide

/-- C3 (amended): for a dynamic pattern whose compiled regex matches the
path suffix from the consumed length plen with k participating named
capture groups, match_with_params returns Some params with exactly k
(name, span) parameters paired in declaration order, each span being the
engine's span shifted by plen so that it resolves against the original
unsliced path to the very substring the engine captured in the sliced
path, and the tail set to the full path length; when every group's
sub-pattern guarantees a nonempty slash-free capture (as the default
sub-pattern of plain \x7bname\x7d segments does — custom sub-patterns
such as \x7btail:.*\x7d need not), every parameter substring is nonempty
and contains no slash. -/
theorem dynamic_match_params (eng : Engine) (re : Str) (names : List Str)
    (tlen : Nat) (rtp : ResourceType) (patt : Str) (elems : List PatternElement)
    (req : Request) (plen : Nat) (g0 : Nat × Nat) (spans : List (Nat × Nat))
    (hbound : req.path.length < 65536)
    (hcaps : eng re (req.path.drop plen) = some (some g0 :: spans.map some))
    (hlen : spans.length = names.length)
    (hseg : ∀ m ∈ spans, m.1 < m.2 ∧ m.2 ≤ (req.path.drop plen).length ∧
      ¬ '/' ∈ slice (req.path.drop plen) m.1 m.2) :
    matchWithParams eng ⟨PatternType.dynamicP re names tlen, rtp, patt, elems⟩
        req plen =
      some ⟨req.path.length, List.zipWith (fun n (m : Nat × Nat) =>
        (n, ParamItem.urlSegment (plen + m.1) (plen + m.2))) names spans⟩ ∧
    (List.zipWith (fun n (m : Nat × Nat) =>
      (n, ParamItem.urlSegment (plen + m.1) (plen + m.2))) names spans).length =
      names.length ∧
    ∀ m ∈ spans,
      (ParamItem.urlSegment (plen + m.1) (plen + m.2)).resolve req.path =
        slice (req.path.drop plen) m.1 m.2 ∧
      ¬ (ParamItem.urlSegment (plen + m.1) (plen + m.2)).resolve req.path = [] ∧
      ¬ '/' ∈ (ParamItem.urlSegment (plen + m.1) (plen + m.2)).resolve req.path := by
  have hmod : ∀ m ∈ spans, (plen + m.1) % 65536 = plen + m.1 ∧
      (plen + m.2) % 65536 = plen + m.2 := by
    intro m hm
    obtain ⟨hm1, hm2, _⟩ := hseg m hm
    rw [List.length_drop] at hm2
    constructor <;> apply Nat.mod_eq_of_lt <;> omega
  have hcol : collectDyn plen names (some g0 :: spans.map some) false =
      some (List.zipWith (fun n (m : Nat × Nat) =>
        (n, ParamItem.urlSegment ((plen + m.1) % 65536) ((plen + m.2) % 65536)))
        names spans) :=
    collectDyn_map_some plen spans names hlen
  have hzip : ∀ (ns : List Str) (ms : List (Nat × Nat)),
      (∀ m ∈ ms, (plen + m.1) % 65536 = plen + m.1 ∧
        (plen + m.2) % 65536 = plen + m.2) →
      List.zipWith (fun n (m : Nat × Nat) =>
        (n, ParamItem.urlSegment ((plen + m.1) % 65536) ((plen + m.2) % 65536))) ns ms =
      List.zipWith (fun n (m : Nat × Nat) =>
        (n, ParamItem.urlSegment (plen + m.1) (plen + m.2))) ns ms := by
    intro ns ms
    induction ms generalizing ns with
    | nil => simp
    | cons m2 ms2 ih =>
      intro hall
      cases ns with
      | nil => simp
      | cons n2 ns2 =>
        simp only [List.zipWith_cons_cons]
        have hm2 := hall m2 (List.mem_cons_self m2 ms2)
        rw [hm2.1, hm2.2, ih ns2 (fun x hx => hall x (List.mem_cons_of_mem m2 hx))]
  refine ⟨?_, ?_, ?_⟩
  · simp only [matchWithParams, hcaps, hcol, Nat.mod_eq_of_lt hbound,
      hzip names spans hmod]
  · rw [List.length_zipWith, hlen, Nat.min_self]
  · intro m hm
    obtain ⟨hm1, hm2, hm3⟩ := hseg m hm
    have hres : (ParamItem.urlSegment (plen + m.1) (plen + m.2)).resolve req.path =
        slice (req.path.drop plen) m.1 m.2 :=
      slice_shift req.path plen m.1 m.2
    refine ⟨hres, ?_, ?_⟩
    · rw [hres]
      intro hc
      have hlc := congrArg List.length hc
      rw [slice_length, List.length_drop] at hlc
      rw [List.length_drop] at hm2
      simp only [List.length_nil] at hlc
      omega
    · rw [hres]
      exact hm3

/-- Witness for C3 (amended): the pattern for /user/\x7bid\x7d on the
request path /user/profile at consumed length 0: one parameter, id with
span (6, 13), resolving to profile. -/
theorem dynamic_match_params_witness :
    matchWithParams userIdEngine ⟨PatternType.dynamicP userIdRe ["id".data] 0,
        ResourceType.normal, userIdTemplate, []⟩
      ⟨Method.GET, "/user/profile".data, []⟩ 0 =
      some ⟨13, [("id".data, ParamItem.urlSegment 6 13)]⟩ :=
  (dynamic_match_params userIdEngine userIdRe ["id".data] 0 ResourceType.normal
    userIdTemplate [] ⟨Method.GET, "/user/profile".data, []⟩ 0 (0, 13) [(6, 13)]
    (by decide) (by decide) (by decide) (by decide)).1

end ActixWeb2
